import Mathlib

/-!
# Verification of the garfutils post lifecycle and selection engine

A shallow embedding, in Lean 4, of the pure logic of the `garfutils`
command-line tool (Rust sources under `src/`): month-day date ranges
(`src/range.rs`), recent-date cache reading and directory scanning
(`src/file.rs`, `src/names.rs`), post creation preconditions and the
transcription flow (`src/actions.rs`), and directory-layout validation
(`src/location.rs`).

Filesystem state is made explicit (directory listings become lists of
entries, file contents become strings), randomness becomes a function
parameter, and external collaborators (editor, image viewer, image
conversion) become parameters or assumed-successful steps.  Machine
integers (`u32`) are modelled as `Nat` with an explicit `2 ^ 32` bound.
Calls into the `chrono` crate (date validity, `%Y-%m-%d`
parsing/formatting, weekday computation) are modelled by explicit
proleptic-Gregorian arithmetic; note that `chrono`'s year 0 (used by
`MonthDay` in `src/range.rs`) is a leap year.
-/

namespace Garfutils

/-! ## Modelling `u32::from_str` (Rust's `str::parse::<u32>`)

Rust's `u32` parser accepts an optional leading `+`, then one or more
ASCII digits, and fails on overflow past `u32::MAX`. -/

def digitVal (c : Char) : Nat := c.toNat - 48

def parseU32Chars (cs : List Char) : Option Nat :=
  let cs := match cs with
    | '+' :: rest => rest
    | other => other
  if cs = [] then none
  else if cs.all Char.isDigit then
    let n := cs.foldl (fun acc c => 10 * acc + digitVal c) 0
    if n < 2 ^ 32 then some n else none
  else none

def parseU32 (s : String) : Option Nat := parseU32Chars s.data

/-! ## Modelling `str::split` (first two parts)

`DateRange::from_str` uses `string.split("..")` and consumes at most the
first two parts; `MonthDay::try_from` does the same with `'-'`.
`splitOnce sep l` finds the first occurrence of the (non-empty) separator
and returns the parts before and after it, or `none` when the separator
does not occur. -/

def splitOnce (sep : List Char) : List Char → Option (List Char × List Char)
  | [] => none
  | c :: rest =>
    if sep.isPrefixOf (c :: rest) then some ([], (c :: rest).drop sep.length)
    else match splitOnce sep rest with
      | none => none
      | some (pre, post) => some (c :: pre, post)

/-- The first part produced by Rust's `split`, and the second part when a
separator occurs (`"a..b..c".split("..")` yields `"a"`, then `"b"`). -/
def splitFirstTwo (sep : List Char) (l : List Char) : List Char × Option (List Char) :=
  match splitOnce sep l with
  | none => (l, none)
  | some (a, rest) =>
    (a, some (match splitOnce sep rest with
      | none => rest
      | some (b, _) => b))

/-! ## `MonthDay` and `DateRange` (`src/range.rs`)

`MonthDay` stores a `chrono::NaiveDate` pinned to `MonthDay::YEAR = 0`;
year 0 of the proleptic Gregorian calendar is a leap year (0 is divisible
by 400), so February 29 is a representable `MonthDay`.  We model the pair
(month, day); `NaiveDate` ordering restricted to a fixed year is
lexicographic on (month, day). -/

/-- Day count of each month in chrono's year 0 (a leap year: Feb has 29). -/
def daysInMonthYear0 (m : Nat) : Nat :=
  match m with
  | 1 => 31 | 2 => 29 | 3 => 31 | 4 => 30 | 5 => 31 | 6 => 30
  | 7 => 31 | 8 => 31 | 9 => 30 | 10 => 31 | 11 => 30 | 12 => 31
  | _ => 0

structure MonthDay where
  month : Nat
  day : Nat
deriving DecidableEq, Repr

/-- Model of `NaiveDate::from_ymd_opt(0, month, day)`: succeeds exactly when the
month/day pair is a real date of year 0. -/
def MonthDay.from_ymd_opt (month day : Nat) : Option MonthDay :=
  if 1 ≤ month ∧ month ≤ 12 ∧ 1 ≤ day ∧ day ≤ daysInMonthYear0 month then
    some ⟨month, day⟩
  else none

def MonthDay.first : MonthDay := ⟨1, 1⟩
def MonthDay.last : MonthDay := ⟨12, 31⟩

/-- The `NaiveDate` ordering at a fixed year: lexicographic on (month, day). -/
def MonthDay.le (a b : MonthDay) : Bool :=
  a.month < b.month || (a.month = b.month && a.day ≤ b.day)

def MonthDay.lt (a b : MonthDay) : Bool :=
  a.month < b.month || (a.month = b.month && a.day < b.day)

/-- Model of `MonthDay::try_from(&str)`: split on `'-'`, parse the first part as the
month and the second as the day (a third part, if any, is ignored by the
iterator use), then validate via `from_ymd_opt`. -/
def MonthDay.tryFrom (s : String) : Option MonthDay :=
  let (monthPart, dayPart?) := splitFirstTwo ['-'] s.data
  match parseU32Chars monthPart with
  | none => none
  | some month =>
    match dayPart? with
    | none => none
    | some dayPart =>
      match parseU32Chars dayPart with
      | none => none
      | some day => MonthDay.from_ymd_opt month day

structure DateRange where
  fromMD : MonthDay
  toMD : MonthDay
deriving DecidableEq, Repr

def DateRange.all : DateRange := ⟨MonthDay.first, MonthDay.last⟩

/-- Model of `DateRange::from_str`: split on `".."`; the first part is the start,
the second part (when present) the end, otherwise end = start; fail when
either side fails `MonthDay::try_from` or when start > end. -/
def DateRange.from_str (s : String) : Except String DateRange :=
  let (fromPart, toPart?) := splitFirstTwo ['.', '.'] s.data
  match MonthDay.tryFrom (String.mk fromPart) with
  | none => .error ("Invalid start date: '" ++ String.mk fromPart ++ "'")
  | some fromMD =>
    let toMD? : Except String MonthDay :=
      match toPart? with
      | none => .ok fromMD
      | some toPart =>
        match MonthDay.tryFrom (String.mk toPart) with
        | none => .error ("Invalid end date: '" ++ String.mk toPart ++ "'")
        | some toMD => .ok toMD
    match toMD? with
    | .error e => .error e
    | .ok toMD =>
      if MonthDay.lt toMD fromMD then .error "End date must be after start date"
      else .ok ⟨fromMD, toMD⟩

/-! ## Calendar dates (`chrono::NaiveDate`)

The tool only ever handles dates written `YYYY-MM-DD` with a non-negative
year (comic archive dates), so we model a `NaiveDate` as a
(year, month, day) triple of naturals under the proleptic Gregorian
calendar. -/

def isLeapYear (y : Nat) : Bool :=
  y % 4 = 0 && (y % 100 ≠ 0 || y % 400 = 0)

def daysInMonth (y m : Nat) : Nat :=
  if m = 2 then (if isLeapYear y then 29 else 28) else daysInMonthYear0 m

structure CalendarDate where
  year : Nat
  month : Nat
  day : Nat
deriving DecidableEq, Repr

def CalendarDate.valid (d : CalendarDate) : Bool :=
  1 ≤ d.month && d.month ≤ 12 && 1 ≤ d.day && d.day ≤ daysInMonth d.year d.month

/-- Model of `MonthDay::from(NaiveDate)`: `date.with_year(0)`, i.e. keep (month, day).
Total because every (month, day) of a real date exists in year 0 (year 0
is a leap year, so Feb 29 maps fine — which is why the `expect` in the
Rust code never fires). -/
def MonthDay.fromDate (d : CalendarDate) : MonthDay := ⟨d.month, d.day⟩

/-- Model of `DateRange::contains`: map the date onto year 0 and compare against the
inclusive endpoints; the year is discarded by `MonthDay::from`. -/
def DateRange.contains (r : DateRange) (d : CalendarDate) : Bool :=
  MonthDay.le r.fromMD (MonthDay.fromDate d) && MonthDay.le (MonthDay.fromDate d) r.toMD

/-! ## `NaiveDate::parse_from_str(s, "%Y-%m-%d")` and `%Y-%m-%d` formatting

Modelled for non-negative years: three `'-'`-separated all-digit fields
(year up to 4 digits, month and day up to 2, matching chrono's numeric
field widths), validated as a proleptic-Gregorian date.  The whole input
must be consumed. -/

/-- Split a character list at every occurrence of a separator character
(like `str::split` with a `char` pattern: n separators yield n+1 parts,
empty parts included). -/
def splitOnChar (sep : Char) : List Char → List (List Char)
  | [] => [[]]
  | c :: rest =>
    if c = sep then [] :: splitOnChar sep rest
    else
      match splitOnChar sep rest with
      | [] => [[c]]
      | l :: ls => (c :: l) :: ls

/-- Model of `str::trim`: drop whitespace from both ends. -/
def trimChars (cs : List Char) : List Char :=
  ((cs.dropWhile Char.isWhitespace).reverse.dropWhile Char.isWhitespace).reverse

def allDigitChars (cs : List Char) : Bool := cs ≠ [] && cs.all Char.isDigit

def charsToNat (cs : List Char) : Nat :=
  cs.foldl (fun acc c => 10 * acc + digitVal c) 0

def parseDateChars (cs : List Char) : Option CalendarDate :=
  match splitOnChar '-' cs with
  | [ys, ms, ds] =>
    if allDigitChars ys && ys.length ≤ 4 && allDigitChars ms && ms.length ≤ 2
        && allDigitChars ds && ds.length ≤ 2 then
      let d : CalendarDate := ⟨charsToNat ys, charsToNat ms, charsToNat ds⟩
      if d.valid then some d else none
    else none
  | _ => none

def parseNaiveDate (s : String) : Option CalendarDate := parseDateChars s.data

def pad2 (n : Nat) : List Char := [Nat.digitChar (n / 10 % 10), Nat.digitChar (n % 10)]

def pad4 (n : Nat) : List Char :=
  [Nat.digitChar (n / 1000 % 10), Nat.digitChar (n / 100 % 10),
   Nat.digitChar (n / 10 % 10), Nat.digitChar (n % 10)]

/-- Model of `date.format("%Y-%m-%d")` (`Display for NaiveDate`) for years 0–9999:
zero-padded `YYYY-MM-DD`. -/
def formatNaiveDate (d : CalendarDate) : String :=
  String.mk (pad4 d.year ++ '-' :: pad2 d.month ++ '-' :: pad2 d.day)

/-! ## Weekday (`NaiveDate::weekday`)

Rata-die day number in the proleptic Gregorian calendar (day 1 =
Monday, January 1 of year 1), valid for years ≥ 1 — every date this tool
sees. `rataDie % 7 = 0` exactly on Sundays. -/

def daysBeforeMonth (y m : Nat) : Nat :=
  (List.range (m - 1)).foldl (fun acc i => acc + daysInMonth y (i + 1)) 0

def rataDie (d : CalendarDate) : Nat :=
  let py := d.year - 1
  365 * py + py / 4 - py / 100 + py / 400 + daysBeforeMonth d.year d.month + d.day

def CalendarDate.isSunday (d : CalendarDate) : Bool := rataDie d % 7 = 0

/-! ## Recent-dates cache (`read_last_line_as_date`, `src/file.rs`)

The file content is read line by line (`BufRead::read_line`, modelled by
splitting on `'\n'`); blank lines (empty after `trim`) are skipped; every
other line must parse as a `%Y-%m-%d` date or the whole read fails; the
last parsed date is returned, and a file with no non-blank lines is the
"File is empty" error. -/

def readLastLineAsDateGo :
    List (List Char) → Option CalendarDate → Except String CalendarDate
  | [], acc =>
    match acc with
    | some d => .ok d
    | none => .error "File is empty"
  | line :: rest, acc =>
    if trimChars line = [] then readLastLineAsDateGo rest acc
    else
      match parseDateChars (trimChars line) with
      | some d => readLastLineAsDateGo rest (some d)
      | none => .error "File contains invalid date"

def read_last_line_as_date (content : String) : Except String CalendarDate :=
  readLastLineAsDateGo (splitOnChar (Char.ofNat 10) content.data) none

/-- Model of `get_recent_date` (`src/names.rs`): error when the recent file does not
exist, otherwise read its last line as a date. `none` models a missing
file. -/
def get_recent_date (recentFile : Option String) : Except String CalendarDate :=
  match recentFile with
  | none => .error "Recent dates file does not yet exist"
  | some content => read_last_line_as_date content

/-! ## Directory scanning (`src/file.rs`, `src/names.rs`)

A directory listing is a list of entry file names; `sort_dir_entries`
sorts by file name (byte order on ASCII names = Lean's `String` order);
an entry's path is the directory joined with its name. -/

def pathJoin (dir name : String) : String := dir ++ "/" ++ name

/-- Byte-lexicographic comparison of names, as Rust's `OsString` ordering
compares file names (UTF-8 byte order agrees with code-point order). -/
def charListLe : List Char → List Char → Bool
  | [], _ => true
  | _ :: _, [] => false
  | a :: as, b :: bs =>
    if a.toNat < b.toNat then true
    else if b.toNat < a.toNat then false
    else charListLe as bs

def nameLe (a b : String) : Bool := charListLe a.data b.data

def sortEntries (names : List String) : List String :=
  List.insertionSort (fun a b => nameLe a b = true) names

/-- Model of `find_child`: sort all entries by file name, then return the name of
the first entry whose path satisfies the (fallible) predicate; predicate
errors propagate. -/
def find_child (dir : String) (names : List String)
    (predicate : String → Except String Bool) : Except String (Option String) :=
  go (sortEntries names)
where
  go : List String → Except String (Option String)
    | [] => .ok none
    | name :: rest =>
      match predicate (pathJoin dir name) with
      | .error e => .error e
      | .ok false => go rest
      | .ok true => .ok (some name)

/-- Model of `find_post` (`src/names.rs`): try each criterion in order, each with
its own full `find_child` scan, stopping at the first criterion that
yields a match. -/
def find_post (dir : String) (names : List String)
    (criteria : List (String → Except String Bool)) : Except String (Option String) :=
  match criteria with
  | [] => .ok none
  | criterion :: rest =>
    match find_child dir names criterion with
    | .error e => .error e
    | .ok (some id) => .ok (some id)
    | .ok none => find_post dir names rest

/-- Model of `get_random_directory_entry` (`src/file.rs`): filter the listing by the
predicate, sort, return `none` when nothing passed, else the entry at a
random index below the filtered length (`swap_remove(index)` returns the
element at `index`). The generator is a parameter producing an in-bounds
index. -/
def get_random_directory_entry (dir : String) (names : List String)
    (predicate : String → Bool) (rng : (n : Nat) → 0 < n → Fin n) : Option String :=
  let entries := sortEntries (names.filter (fun name => predicate (pathJoin dir name)))
  if h : entries.length = 0 then none
  else some (entries.get (rng entries.length (Nat.pos_of_ne_zero h)))

/-! ## `is_id_sunday` and the transcription flow (`src/actions.rs`) -/

/-- Model of `is_id_sunday`: parse the id as a `u32`, error when it is not
an integer, else test `(id + 1) % 7 == 0` where the addition is `u32`
addition: at `u32::MAX` (id `"4294967295"`, which `parse::<u32>` accepts)
the sum wraps to 0, as in the release binary (a debug build would panic
on that overflow instead). -/
def is_id_sunday (id : String) : Except String Bool :=
  match parseU32 id with
  | none => .error "Post id is not an integer"
  | some n => .ok (decide ((n + 1) % 2 ^ 32 % 7 = 0))

def sundayTemplate : String := "---\n---\n---\n---\n---\n---"
def weekdayTemplate : String := "---\n---"

/-- The working template `transcribe` writes to the temp file: the existing
transcript's contents when the post already has one, otherwise a
placeholder whose line count depends on `is_id_sunday id` (and thereby
inherits its `u32` wrapping at id `"4294967295"`). -/
def transcript_template (existingTranscript : Option String) (id : String) :
    Except String String :=
  match existingTranscript with
  | some contents => .ok contents
  | none =>
    match is_id_sunday id with
    | .error e => .error e
    | .ok true => .ok sundayTemplate
    | .ok false => .ok weekdayTemplate

/-- Outcome of `transcribe` for a given post: either an error (from
`is_id_sunday` on a template-less post), or `none` when the edited temp
file still equals the template (no transcript file is created or
modified), or `some content` when the edited bytes differ and the temp
file is renamed onto the post's transcript file.  `edited` is the temp
file's content after the external editor ran (`file_matches_string`
compares it byte-for-byte against the template). -/
def transcribe (existingTranscript : Option String) (id : String)
    (edited : String) : Except String (Option String) :=
  match transcript_template existingTranscript id with
  | .error e => .error e
  | .ok template =>
    if edited = template then .ok none
    else .ok (some edited)

/-! ## `make` preconditions (`src/actions.rs`) -/

/-- A post directory entry: its name and the content of its `date` file
when that file exists (other files are irrelevant to `make`). -/
structure PostEntry where
  name : String
  dateFile : Option String
deriving DecidableEq, Repr

/-- Model of `exists_post_with_date`: scan the directory; entries without a `date`
file or whose `date` file does not parse (after `trim`) are skipped; true
iff some entry's parsed date equals the given date. -/
def exists_post_with_date (entries : List PostEntry) (date : CalendarDate) : Bool :=
  entries.any fun entry =>
    match entry.dateFile with
    | none => false
    | some content =>
      match parseDateChars (trimChars content.data) with
      | none => false
      | some existing => existing = date

/-- The filesystem state `make` consults and mutates: whether the source
image for the requested date exists, the generated and posts directory
listings, and whether the icon file and watermarks file load (collaborator
steps that run before any check). -/
structure MakeState where
  sourceExists : Bool
  generated : List PostEntry
  posts : List PostEntry
  iconOk : Bool
  watermarkOk : Bool
deriving Repr

inductive MakeError
  | iconError
  | watermarkError
  | notARealComic
  | duplicateGenerated
  | duplicateCompleted
deriving DecidableEq, Repr

/-- Model of `make(location, date, name, skip_post_check)`, up to the point where
directory contents are created; the steps after the three checks (write
date file, create title, convert and save images) are modelled as
succeeding, appending the new post entry to the generated listing.  The
returned state is unchanged whenever an error is returned: all checks in
the Rust code run before `fs::create_dir`. -/
def make (st : MakeState) (date : CalendarDate) (name : String)
    (skip_post_check : Bool) : MakeState × Option MakeError :=
  if !st.iconOk then (st, some .iconError)
  else if !st.watermarkOk then (st, some .watermarkError)
  else if !st.sourceExists then (st, some .notARealComic)
  else if exists_post_with_date st.generated date then (st, some .duplicateGenerated)
  else if exists_post_with_date st.posts date && !skip_post_check then
    (st, some .duplicateCompleted)
  else
    ({ st with
        generated := st.generated ++ [⟨name, some (formatNaiveDate date)⟩] },
      none)

/-! ## Location validation (`src/location.rs`) -/

/-- The kinds of the base directory and its fixed sub-paths, as found on
disk (`is_dir` / `is_file` follow symlinks; "missing" and "wrong kind"
both show up as `false`). -/
structure LocationState where
  baseIsDir : Bool
  sourceIsDir : Bool
  generatedIsDir : Bool
  postsIsDir : Bool
  oldIsDir : Bool
  tempIsDir : Bool
  watermarksIsFile : Bool
  iconIsFile : Bool
deriving DecidableEq, Repr

inductive LocationError
  | notADirectory
  | missingSubpath (name : String)
deriving DecidableEq, Repr

/-- Model of `Location::check_dirs_exist` (the whole of `Location::from` after the
base directory is determined): fail if the base is not a directory, then
check, in order, `source`, `generated`, `posts`, `old` as directories and
`watermarks`, `icon.png` as files, bailing at the first violation. The
temp dir is not checked. -/
def check_dirs_exist (st : LocationState) : Except LocationError Unit :=
  if !st.baseIsDir then .error .notADirectory
  else if !st.sourceIsDir then .error (.missingSubpath "source")
  else if !st.generatedIsDir then .error (.missingSubpath "generated")
  else if !st.postsIsDir then .error (.missingSubpath "posts")
  else if !st.oldIsDir then .error (.missingSubpath "old")
  else if !st.watermarksIsFile then .error (.missingSubpath "watermarks")
  else if !st.iconIsFile then .error (.missingSubpath "icon.png")
  else .ok ()

/-! ## `generate_name` (`src/names.rs`)

Four letters drawn from `'A'..='Z'` when the date's weekday is Sunday,
from `'a'..='z'` otherwise, followed by `':'` and the `%Y-%m-%d` date.
The generator is a parameter: `rng i lo hi` is the `i`-th draw from the
inclusive char range `lo..=hi`. -/

def generate_name (rng : Nat → Char → Char → Char) (date : CalendarDate) : String :=
  let lo : Char := if date.isSunday then 'A' else 'a'
  let hi : Char := if date.isSunday then 'Z' else 'z'
  String.mk [rng 0 lo hi, rng 1 lo hi, rng 2 lo hi, rng 3 lo hi]
    ++ ":" ++ formatNaiveDate date

/-! ## Canonical `MM-DD` strings and helper predicates for the claims -/

/-- Two-digit zero-padded rendering of `n < 100`. -/
def twoDig (n : Nat) : List Char := [Nat.digitChar (n / 10), Nat.digitChar (n % 10)]

def mdChars (m d : Nat) : List Char := twoDig m ++ '-' :: twoDig d

/-- The canonical `"MM-DD"` string. -/
def mdStr (m d : Nat) : String := String.mk (mdChars m d)

/-- The canonical `"MM-DD..MM-DD"` string. -/
def rangeStr (m1 d1 m2 d2 : Nat) : String :=
  String.mk (mdChars m1 d1 ++ '.' :: '.' :: mdChars m2 d2)

/-- Validity of a month/day pair in chrono's year 0 (what
`MonthDay::from_ymd_opt` actually tests; February has 29 days). -/
def validMonthDayYear0 (m d : Nat) : Bool :=
  1 ≤ m && m ≤ 12 && 1 ≤ d && d ≤ daysInMonthYear0 m

/-- Modelled from the spec: validity of a month/day pair "under the
synthetic (non-leap) year" — February would have only 28 days.  Stated
for comparison with the code's `validMonthDayYear0`. -/
def specValidMonthDayNonLeap (m d : Nat) : Bool :=
  1 ≤ m && m ≤ 12 && 1 ≤ d && d ≤ (if m = 2 then 28 else daysInMonthYear0 m)

/-! ### Digit and parsing lemmas -/

lemma digitChar_eq_star (a : Nat) (h : 16 ≤ a) : Nat.digitChar a = '*' := by
  unfold Nat.digitChar
  repeat rw [if_neg (by omega)]

lemma digitChar_ne_dash (a : Nat) : Nat.digitChar a ≠ '-' := by
  rcases Nat.lt_or_ge a 16 with h | h
  · interval_cases a <;> decide
  · rw [digitChar_eq_star a h]; decide

lemma digitChar_ne_dot (a : Nat) : Nat.digitChar a ≠ '.' := by
  rcases Nat.lt_or_ge a 16 with h | h
  · interval_cases a <;> decide
  · rw [digitChar_eq_star a h]; decide

lemma parseU32Chars_twoDigits :
    ∀ x < 10, ∀ y < 10,
      parseU32Chars [Nat.digitChar x, Nat.digitChar y] = some (10 * x + y) := by
  decide

lemma parseU32Chars_twoDig (n : Nat) (h : n < 100) :
    parseU32Chars (twoDig n) = some n := by
  have h1 : n / 10 < 10 := by omega
  have h2 : n % 10 < 10 := by omega
  have := parseU32Chars_twoDigits (n / 10) h1 (n % 10) h2
  rw [twoDig, this]
  congr 1
  omega

lemma dash_not_mem_twoDig (n : Nat) : '-' ∉ twoDig n := by
  intro hmem
  rw [twoDig] at hmem
  rcases List.mem_pair.mp hmem with h | h
  · exact digitChar_ne_dash (n / 10) h.symm
  · exact digitChar_ne_dash (n % 10) h.symm

lemma dot_not_mem_twoDig (n : Nat) : '.' ∉ twoDig n := by
  intro hmem
  rw [twoDig] at hmem
  rcases List.mem_pair.mp hmem with h | h
  · exact digitChar_ne_dot (n / 10) h.symm
  · exact digitChar_ne_dot (n % 10) h.symm

lemma dot_not_mem_mdChars (m d : Nat) : '.' ∉ mdChars m d := by
  intro hmem
  rw [mdChars] at hmem
  rcases List.mem_append.mp hmem with h | h
  · exact dot_not_mem_twoDig m h
  · rcases List.mem_cons.mp h with h | h
    · exact absurd h.symm (by decide)
    · exact dot_not_mem_twoDig d h

/-! ### `splitOnce` lemmas -/

lemma splitOnce_single_of_not_mem (c : Char) (xs ys : List Char) (h : c ∉ xs) :
    splitOnce [c] (xs ++ c :: ys) = some (xs, ys) := by
  induction xs with
  | nil => simp [splitOnce, List.isPrefixOf]
  | cons a t ih =>
    have ha : ¬(c = a) := fun hc => h (hc ▸ List.mem_cons_self a t)
    have ht : c ∉ t := fun hc => h (List.mem_cons_of_mem a hc)
    have hpre : ([c].isPrefixOf (a :: (t ++ c :: ys))) = false := by
      simp [List.isPrefixOf, ha]
    rw [List.cons_append, splitOnce, hpre]
    simp only [Bool.false_eq_true, if_false, List.append_eq, ih ht]

lemma splitOnce_single_none (c : Char) (xs : List Char) (h : c ∉ xs) :
    splitOnce [c] xs = none := by
  induction xs with
  | nil => rfl
  | cons a t ih =>
    have ha : ¬(c = a) := fun hc => h (hc ▸ List.mem_cons_self a t)
    have ht : c ∉ t := fun hc => h (List.mem_cons_of_mem a hc)
    have hpre : ([c].isPrefixOf (a :: t)) = false := by
      simp [List.isPrefixOf, ha]
    rw [splitOnce, hpre]
    simp only [Bool.false_eq_true, if_false, ih ht]

lemma splitOnce_double_of_not_mem (c : Char) (xs ys : List Char) (h : c ∉ xs) :
    splitOnce [c, c] (xs ++ c :: c :: ys) = some (xs, ys) := by
  induction xs with
  | nil => simp [splitOnce, List.isPrefixOf]
  | cons a t ih =>
    have ha : ¬(c = a) := fun hc => h (hc ▸ List.mem_cons_self a t)
    have ht : c ∉ t := fun hc => h (List.mem_cons_of_mem a hc)
    have hpre : ([c, c].isPrefixOf (a :: (t ++ c :: c :: ys))) = false := by
      simp [List.isPrefixOf, ha]
    rw [List.cons_append, splitOnce, hpre]
    simp only [Bool.false_eq_true, if_false, List.append_eq, ih ht]

lemma splitOnce_double_none (c : Char) (xs : List Char) (h : c ∉ xs) :
    splitOnce [c, c] xs = none := by
  induction xs with
  | nil => rfl
  | cons a t ih =>
    have ha : ¬(c = a) := fun hc => h (hc ▸ List.mem_cons_self a t)
    have ht : c ∉ t := fun hc => h (List.mem_cons_of_mem a hc)
    have hpre : ([c, c].isPrefixOf (a :: t)) = false := by
      simp [List.isPrefixOf, ha]
    rw [splitOnce, hpre]
    simp only [Bool.false_eq_true, if_false, ih ht]

/-! ### Parsing canonical strings -/

lemma splitFirstTwo_mdChars (m d : Nat) :
    splitFirstTwo ['-'] (mdChars m d) = (twoDig m, some (twoDig d)) := by
  simp only [splitFirstTwo, mdChars,
    splitOnce_single_of_not_mem '-' (twoDig m) (twoDig d) (dash_not_mem_twoDig m),
    splitOnce_single_none '-' (twoDig d) (dash_not_mem_twoDig d)]

lemma splitFirstTwo_dots_mdChars (m d : Nat) :
    splitFirstTwo ['.', '.'] (mdChars m d) = (mdChars m d, none) := by
  simp only [splitFirstTwo,
    splitOnce_double_none '.' (mdChars m d) (dot_not_mem_mdChars m d)]

lemma splitFirstTwo_dots_range (m1 d1 m2 d2 : Nat) :
    splitFirstTwo ['.', '.'] (mdChars m1 d1 ++ '.' :: '.' :: mdChars m2 d2) =
      (mdChars m1 d1, some (mdChars m2 d2)) := by
  simp only [splitFirstTwo,
    splitOnce_double_of_not_mem '.' (mdChars m1 d1) (mdChars m2 d2)
      (dot_not_mem_mdChars m1 d1),
    splitOnce_double_none '.' (mdChars m2 d2) (dot_not_mem_mdChars m2 d2)]

lemma tryFrom_mdStr (m d : Nat) (hm : m < 100) (hd : d < 100) :
    MonthDay.tryFrom (mdStr m d) = MonthDay.from_ymd_opt m d := by
  simp only [MonthDay.tryFrom, mdStr, splitFirstTwo_mdChars,
    parseU32Chars_twoDig m hm, parseU32Chars_twoDig d hd]

lemma from_str_mdStr (m d : Nat) (hm : m < 100) (hd : d < 100) :
    DateRange.from_str (mdStr m d) =
      match MonthDay.from_ymd_opt m d with
      | none => .error ("Invalid start date: '" ++ mdStr m d ++ "'")
      | some md => .ok ⟨md, md⟩ := by
  have hmd : MonthDay.tryFrom (String.mk (mdChars m d)) = MonthDay.from_ymd_opt m d :=
    tryFrom_mdStr m d hm hd
  simp only [DateRange.from_str, mdStr, splitFirstTwo_dots_mdChars, hmd]
  cases MonthDay.from_ymd_opt m d with
  | none => rfl
  | some md =>
    have hlt : MonthDay.lt md md = false := by
      simp [MonthDay.lt]
    simp [hlt, mdStr]

lemma from_str_rangeStr (m1 d1 m2 d2 : Nat)
    (hm1 : m1 < 100) (hd1 : d1 < 100) (hm2 : m2 < 100) (hd2 : d2 < 100) :
    DateRange.from_str (rangeStr m1 d1 m2 d2) =
      match MonthDay.from_ymd_opt m1 d1 with
      | none => .error ("Invalid start date: '" ++ mdStr m1 d1 ++ "'")
      | some fromMD =>
        match MonthDay.from_ymd_opt m2 d2 with
        | none => .error ("Invalid end date: '" ++ mdStr m2 d2 ++ "'")
        | some toMD =>
          if MonthDay.lt toMD fromMD then .error "End date must be after start date"
          else .ok ⟨fromMD, toMD⟩ := by
  have hmd1 : MonthDay.tryFrom (String.mk (mdChars m1 d1)) = MonthDay.from_ymd_opt m1 d1 :=
    tryFrom_mdStr m1 d1 hm1 hd1
  have hmd2 : MonthDay.tryFrom (String.mk (mdChars m2 d2)) = MonthDay.from_ymd_opt m2 d2 :=
    tryFrom_mdStr m2 d2 hm2 hd2
  simp only [DateRange.from_str, rangeStr, splitFirstTwo_dots_range, hmd1, hmd2]
  cases MonthDay.from_ymd_opt m1 d1 with
  | none => rfl
  | some fromMD =>
    cases MonthDay.from_ymd_opt m2 d2 with
    | none => rfl
    | some toMD =>
      by_cases hlt : MonthDay.lt toMD fromMD = true
      · simp [hlt, mdStr]
      · simp only [Bool.not_eq_true] at hlt
        simp [hlt, mdStr]

instance instExceptDecEq {ε α : Type} [DecidableEq ε] [DecidableEq α] :
    DecidableEq (Except ε α) := fun x y =>
  match x, y with
  | .error a, .error b =>
    if h : a = b then isTrue (by rw [h]) else isFalse (by intro hc; cases hc; exact h rfl)
  | .error a, .ok b => isFalse (by intro hc; cases hc)
  | .ok a, .error b => isFalse (by intro hc; cases hc)
  | .ok a, .ok b =>
    if h : a = b then isTrue (by rw [h]) else isFalse (by intro hc; cases hc; exact h rfl)

lemma except_isOk_ok {ε α : Type} (x : α) : (Except.ok x : Except ε α).isOk = true := rfl

lemma except_isOk_error {ε α : Type} (e : ε) :
    (Except.error e : Except ε α).isOk = false := rfl

lemma monthDay_lt_eq_not_le (a b : MonthDay) : MonthDay.lt b a = !MonthDay.le a b := by
  refine Bool.eq_iff_iff.mpr ?_
  simp only [MonthDay.lt, MonthDay.le, Bool.or_eq_true, Bool.and_eq_true,
    Bool.not_eq_true', Bool.or_eq_false_iff, Bool.and_eq_false_iff,
    decide_eq_true_eq, decide_eq_false_iff_not]
  omega

lemma from_ymd_opt_eq_valid (m d : Nat) :
    MonthDay.from_ymd_opt m d =
      if validMonthDayYear0 m d then some ⟨m, d⟩ else none := by
  rw [MonthDay.from_ymd_opt, validMonthDayYear0]
  by_cases h : 1 ≤ m ∧ m ≤ 12 ∧ 1 ≤ d ∧ d ≤ daysInMonthYear0 m
  · rw [if_pos h, if_pos (by simp only [Bool.and_eq_true, decide_eq_true_eq]; tauto)]
  · rw [if_neg h, if_neg (by simp only [Bool.and_eq_true, decide_eq_true_eq]; tauto)]

/-- C1 counterexample: the claim requires month-day validation "under the
synthetic non-leap year", under which February 29 is invalid — but
`DateRange::from_str` accepts `"02-29"`, because `MonthDay::YEAR = 0` and
chrono's year 0 is a leap year. -/
theorem c1_leap_counterexample :
    (DateRange.from_str "02-29").isOk = true
    ∧ specValidMonthDayNonLeap 2 29 = false
    ∧ DateRange.from_str "02-29" = .ok ⟨⟨2, 29⟩, ⟨2, 29⟩⟩ := by
  refine ⟨rfl, by decide, rfl⟩

/-- C1 (amended): over the claim's grammar (`"MM-DD"` and
`"MM-DD..MM-DD"`, numeric components below 100), `DateRange` parsing
succeeds exactly when each side is a valid month/day of the synthetic
**leap** year (chrono's year 0, so `"02-29"` parses while `"02-30"`
fails) and start ≤ end in (month, day) order; a single day yields
`from = to`; `"06-10..06-01"` fails because `from > to`.  Parsing is a
pure function. -/
theorem from_str_correct (m1 d1 m2 d2 : Nat)
    (hm1 : m1 < 100) (hd1 : d1 < 100) (hm2 : m2 < 100) (hd2 : d2 < 100) :
    ((DateRange.from_str (mdStr m1 d1)).isOk = validMonthDayYear0 m1 d1)
    ∧ (validMonthDayYear0 m1 d1 = true →
        DateRange.from_str (mdStr m1 d1) = .ok ⟨⟨m1, d1⟩, ⟨m1, d1⟩⟩)
    ∧ ((DateRange.from_str (rangeStr m1 d1 m2 d2)).isOk =
        (validMonthDayYear0 m1 d1 && validMonthDayYear0 m2 d2
          && MonthDay.le ⟨m1, d1⟩ ⟨m2, d2⟩))
    ∧ (validMonthDayYear0 m1 d1 = true → validMonthDayYear0 m2 d2 = true →
        MonthDay.le ⟨m1, d1⟩ ⟨m2, d2⟩ = true →
        DateRange.from_str (rangeStr m1 d1 m2 d2) = .ok ⟨⟨m1, d1⟩, ⟨m2, d2⟩⟩)
    ∧ DateRange.from_str "02-30" = .error "Invalid start date: '02-30'"
    ∧ DateRange.from_str "06-10..06-01" = .error "End date must be after start date" := by
  refine ⟨?_, ?_, ?_, ?_, rfl, rfl⟩
  · rw [from_str_mdStr m1 d1 hm1 hd1, from_ymd_opt_eq_valid]
    by_cases h : validMonthDayYear0 m1 d1 = true
    · simp [h, except_isOk_ok]
    · simp only [Bool.not_eq_true] at h
      simp [h, except_isOk_error]
  · intro h
    rw [from_str_mdStr m1 d1 hm1 hd1, from_ymd_opt_eq_valid, if_pos h]
  · rw [from_str_rangeStr m1 d1 m2 d2 hm1 hd1 hm2 hd2,
      from_ymd_opt_eq_valid m1 d1, from_ymd_opt_eq_valid m2 d2]
    by_cases h1 : validMonthDayYear0 m1 d1 = true
    · by_cases h2 : validMonthDayYear0 m2 d2 = true
      · rw [if_pos h1, if_pos h2]
        simp only [h1, h2, Bool.true_and]
        rw [monthDay_lt_eq_not_le]
        by_cases hle : MonthDay.le ⟨m1, d1⟩ ⟨m2, d2⟩ = true
        · simp [hle, except_isOk_ok]
        · simp only [Bool.not_eq_true] at hle
          simp [hle, except_isOk_error]
      · simp only [Bool.not_eq_true] at h2
        rw [if_pos h1, if_neg (by simp [h2])]
        simp [h2, except_isOk_error]
    · simp only [Bool.not_eq_true] at h1
      rw [if_neg (by simp [h1])]
      simp [h1, except_isOk_error]
  · intro h1 h2 hle
    rw [from_str_rangeStr m1 d1 m2 d2 hm1 hd1 hm2 hd2,
      from_ymd_opt_eq_valid m1 d1, from_ymd_opt_eq_valid m2 d2,
      if_pos h1, if_pos h2]
    simp only [monthDay_lt_eq_not_le, hle, Bool.not_true, Bool.false_eq_true, if_false]

/-- Witness for `from_str_correct` at the claim's own example
`"03-01..03-15"` (and `"03-01"`). -/
theorem from_str_correct_witness :
    DateRange.from_str (rangeStr 3 1 3 15) = .ok ⟨⟨3, 1⟩, ⟨3, 15⟩⟩
    ∧ DateRange.from_str (mdStr 3 1) = .ok ⟨⟨3, 1⟩, ⟨3, 1⟩⟩ :=
  ⟨(from_str_correct 3 1 3 15 (by decide) (by decide) (by decide)
      (by decide)).2.2.2.1 (by decide) (by decide) (by decide),
   (from_str_correct 3 1 3 15 (by decide) (by decide) (by decide)
      (by decide)).2.1 (by decide)⟩

/-- C9 counterexample: the claim says the result is true exactly when the
id parses to `n` with `(n + 1) % 7 == 0`, but the source adds on `u32`:
id `"4294967295"` parses (it is `u32::MAX`), `(n + 1) % 7 = 4 ≠ 0`
mathematically, yet the wrapped sum is 0 and the function returns
`Ok(true)`. -/
theorem c9_wrap_counterexample :
    parseU32 "4294967295" = some 4294967295
    ∧ is_id_sunday "4294967295" = .ok true
    ∧ (4294967295 + 1) % 7 ≠ 0 := ⟨rfl, rfl, by decide⟩

/-- C9 (amended): `is_id_sunday` returns `Ok((n + 1) % 2^32 % 7 == 0)` —
the `u32` wrapping sum — exactly when the id parses as a base-10 `u32`
integer `n`, so id `"6"` yields `true`, id `"0"` yields `false`, and id
`"4294967295"` yields `true` because the sum wraps to 0; it returns an
error for every id that does not parse as a `u32`. -/
theorem is_id_sunday_correct :
    (∀ id n, parseU32 id = some n →
      is_id_sunday id = .ok (decide ((n + 1) % 2 ^ 32 % 7 = 0)))
    ∧ (∀ id, parseU32 id = none →
        is_id_sunday id = .error "Post id is not an integer")
    ∧ (∀ id, (is_id_sunday id).isOk = (parseU32 id).isSome)
    ∧ is_id_sunday "6" = .ok true
    ∧ is_id_sunday "0" = .ok false
    ∧ is_id_sunday "4294967295" = .ok true
    ∧ is_id_sunday "abc" = .error "Post id is not an integer" := by
  refine ⟨?_, ?_, ?_, rfl, rfl, rfl, rfl⟩
  · intro id n h
    rw [is_id_sunday, h]
  · intro id h
    rw [is_id_sunday, h]
  · intro id
    rw [is_id_sunday]
    cases parseU32 id <;> rfl

/-- Witness for `is_id_sunday_correct`: id `"13"` is a Sunday id. -/
theorem is_id_sunday_correct_witness :
    is_id_sunday "13" = .ok (decide ((13 + 1) % 2 ^ 32 % 7 = 0)) :=
  is_id_sunday_correct.1 "13" 13 (by decide)

/-- C6 counterexample: `Location::from` validates `source`, `generated`,
`posts`, `old`, `watermarks` and `icon.png` but never the temp dir
(`tmp`), so it succeeds on a location whose temp sub-path is absent —
contradicting the claim that success requires all directory sub-paths
including temp. -/
theorem c6_temp_counterexample :
    check_dirs_exist ⟨true, true, true, true, true, false, true, true⟩ = .ok ()
    ∧ (⟨true, true, true, true, true, false, true, true⟩ : LocationState).tempIsDir
        = false := by
  exact ⟨rfl, rfl⟩

set_option synthInstance.maxSize 2000 in
/-- C6 (amended): `Location::from` fails with a distinct error at the
first violation, in the fixed order base dir, `source`, `generated`,
`posts`, `old`, `watermarks`, `icon.png`, and succeeds exactly when the
base and those four sub-directories are directories and the two files are
regular files; the temp dir is not checked. -/
theorem check_dirs_exist_correct (b s g p o t w i : Bool) :
    (check_dirs_exist ⟨b, s, g, p, o, t, w, i⟩ = .ok ()
      ↔ (b && s && g && p && o && w && i) = true)
    ∧ (b = false →
        check_dirs_exist ⟨b, s, g, p, o, t, w, i⟩ = .error .notADirectory)
    ∧ (b = true → s = false →
        check_dirs_exist ⟨b, s, g, p, o, t, w, i⟩ = .error (.missingSubpath "source"))
    ∧ (b = true → s = true → g = false →
        check_dirs_exist ⟨b, s, g, p, o, t, w, i⟩ = .error (.missingSubpath "generated"))
    ∧ (b = true → s = true → g = true → p = false →
        check_dirs_exist ⟨b, s, g, p, o, t, w, i⟩ = .error (.missingSubpath "posts"))
    ∧ (b = true → s = true → g = true → p = true → o = false →
        check_dirs_exist ⟨b, s, g, p, o, t, w, i⟩ = .error (.missingSubpath "old"))
    ∧ (b = true → s = true → g = true → p = true → o = true → w = false →
        check_dirs_exist ⟨b, s, g, p, o, t, w, i⟩ = .error (.missingSubpath "watermarks"))
    ∧ (b = true → s = true → g = true → p = true → o = true → w = true → i = false →
        check_dirs_exist ⟨b, s, g, p, o, t, w, i⟩ = .error (.missingSubpath "icon.png")) := by
  cases b <;> cases s <;> cases g <;> cases p <;> cases o <;> cases t <;> cases w <;>
    cases i <;> decide

/-- Witness for `check_dirs_exist_correct`: a location missing only its
`watermarks` file fails with exactly the watermarks error. -/
theorem check_dirs_exist_correct_witness :
    check_dirs_exist ⟨true, true, true, true, true, true, false, true⟩
      = .error (.missingSubpath "watermarks") :=
  (check_dirs_exist_correct true true true true true true false
      true).2.2.2.2.2.2.1 rfl rfl rfl rfl rfl rfl

/-- C7 counterexample: the claim promises exactly two placeholder lines
for every id that is not a Sunday id, but at id `"4294967295"` — not a
Sunday id, since `(n + 1) % 7 = 4` mathematically — the program's `u32`
sum wraps to 0, `is_id_sunday` answers true, and the six-line Sunday
template is prepared. -/
theorem c7_wrap_counterexample :
    transcript_template none "4294967295" = .ok sundayTemplate
    ∧ splitOnChar (Char.ofNat 10) sundayTemplate.data
        ≠ ["---".data, "---".data]
    ∧ (4294967295 + 1) % 7 ≠ 0 := ⟨rfl, by decide, by decide⟩

/-- C7 (amended): for a post with no existing transcript, the working
template has exactly six `"---"` lines when the id-based Sunday check —
`u32` wrapping sum, see `is_id_sunday` — answers true (so for id `"6"`,
but also for the wrapping id `"4294967295"`), and exactly two lines when
it answers false (so for id `"5"`); when the edited temp file still
equals the template byte-for-byte, `transcribe` returns without touching
the transcript file, and only when it differs is the edited content
persisted (by rename, after confirmation). -/
theorem transcribe_correct :
    transcript_template none "6" = .ok sundayTemplate
    ∧ splitOnChar (Char.ofNat 10) sundayTemplate.data
        = ["---".data, "---".data, "---".data, "---".data, "---".data, "---".data]
    ∧ transcript_template none "5" = .ok weekdayTemplate
    ∧ splitOnChar (Char.ofNat 10) weekdayTemplate.data = ["---".data, "---".data]
    ∧ transcript_template none "4294967295" = .ok sundayTemplate
    ∧ (∀ id, is_id_sunday id = .ok true → transcript_template none id = .ok sundayTemplate)
    ∧ (∀ id, is_id_sunday id = .ok false →
        transcript_template none id = .ok weekdayTemplate)
    ∧ (∀ tr id edited template, transcript_template tr id = .ok template →
        edited = template → transcribe tr id edited = .ok none)
    ∧ (∀ tr id edited template, transcript_template tr id = .ok template →
        edited ≠ template → transcribe tr id edited = .ok (some edited)) := by
  refine ⟨rfl, by decide, rfl, by decide, rfl, ?_, ?_, ?_, ?_⟩
  · intro id h
    rw [transcript_template, h]
  · intro id h
    rw [transcript_template, h]
  · intro tr id edited template ht he
    rw [transcribe, ht]
    simp [he]
  · intro tr id edited template ht he
    rw [transcribe, ht]
    simp [he]

/-- Witness for `transcribe_correct`: editing the Sunday template of post
`"6"` into itself persists nothing; editing it to `"x"` persists `"x"`. -/
theorem transcribe_correct_witness :
    transcribe none "6" sundayTemplate = .ok none
    ∧ transcribe none "6" "x" = .ok (some "x") :=
  ⟨transcribe_correct.2.2.2.2.2.2.2.1 none "6" sundayTemplate sundayTemplate
      transcribe_correct.1 rfl,
   transcribe_correct.2.2.2.2.2.2.2.2 none "6" "x" sundayTemplate
      transcribe_correct.1 (by decide)⟩

/-! ## C2: the recent-dates cache -/

/-- Modelled from the spec: "the 'most recent' value is defined as the
last syntactically valid, non-blank line" — the last line (after
trimming) that parses as a `%Y-%m-%d` date, invalid lines simply being
passed over. -/
def specLastValidDate (content : String) : Option CalendarDate :=
  (((splitOnChar (Char.ofNat 10) content.data).map trimChars).filterMap
    parseDateChars).getLast?

/-- The trimmed non-blank lines of a file's content, in order. -/
def nonBlankTrimmedLines (content : String) : List (List Char) :=
  ((splitOnChar (Char.ofNat 10) content.data).map trimChars).filter
    (fun l => !l.isEmpty)

/-- C2 counterexample: the claim says the result is the date of the last
syntactically *valid* non-blank line, but `read_last_line_as_date` fails
outright on the first invalid non-blank line instead of skipping it: on
`"2024-01-01\ngarbage"` the code errors while the last valid line is
`2024-01-01`. -/
theorem c2_invalid_line_counterexample :
    (read_last_line_as_date "2024-01-01\ngarbage").isOk = false
    ∧ specLastValidDate "2024-01-01\ngarbage" = some ⟨2024, 1, 1⟩ := ⟨rfl, rfl⟩

lemma readGo_correct (lines : List (List Char)) (acc : Option CalendarDate) :
    ((lines.map trimChars).filter (fun l => !l.isEmpty) = [] →
      readLastLineAsDateGo lines acc =
        match acc with
        | some d => .ok d
        | none => .error "File is empty")
    ∧ ((∀ l ∈ (lines.map trimChars).filter (fun l => !l.isEmpty),
          (parseDateChars l).isSome) →
        ∀ lst, ((lines.map trimChars).filter (fun l => !l.isEmpty)).getLast? = some lst →
        ∃ d, parseDateChars lst = some d ∧ readLastLineAsDateGo lines acc = .ok d)
    ∧ ((∃ l ∈ (lines.map trimChars).filter (fun l => !l.isEmpty),
          parseDateChars l = none) →
        (readLastLineAsDateGo lines acc).isOk = false) := by
  induction lines generalizing acc with
  | nil =>
    refine ⟨fun _ => rfl, ?_, ?_⟩
    · intro _ lst hlst
      simp at hlst
    · intro hex
      simp at hex
  | cons line rest ih =>
    by_cases hblank : trimChars line = []
    · have hfilter : ((line :: rest).map trimChars).filter (fun l => !l.isEmpty)
          = (rest.map trimChars).filter (fun l => !l.isEmpty) := by
        simp [hblank]
      have hgo : readLastLineAsDateGo (line :: rest) acc = readLastLineAsDateGo rest acc := by
        rw [readLastLineAsDateGo, if_pos hblank]
      rw [hfilter, hgo]
      exact ih acc
    · have hne : (trimChars line).isEmpty = false := by
        cases hc : trimChars line with
        | nil => exact absurd hc hblank
        | cons a t => rfl
      have hfilter : ((line :: rest).map trimChars).filter (fun l => !l.isEmpty)
          = trimChars line :: (rest.map trimChars).filter (fun l => !l.isEmpty) := by
        simp [hne]
      rw [hfilter]
      cases hparse : parseDateChars (trimChars line) with
      | none =>
        have hgo : readLastLineAsDateGo (line :: rest) acc
            = .error "File contains invalid date" := by
          rw [readLastLineAsDateGo, if_neg hblank, hparse]
        refine ⟨?_, ?_, ?_⟩
        · intro hnil
          exact absurd hnil (List.cons_ne_nil _ _)
        · intro hall lst hlst
          have := hall (trimChars line) (List.mem_cons_self _ _)
          rw [hparse] at this
          exact absurd this (by simp)
        · intro _
          rw [hgo]
          rfl
      | some d =>
        have hgo : readLastLineAsDateGo (line :: rest) acc
            = readLastLineAsDateGo rest (some d) := by
          rw [readLastLineAsDateGo, if_neg hblank, hparse]
        rw [hgo]
        refine ⟨?_, ?_, ?_⟩
        · intro hnil
          exact absurd hnil (List.cons_ne_nil _ _)
        · intro hall lst hlst
          cases hrest : (rest.map trimChars).filter (fun l => !l.isEmpty) with
          | nil =>
            rw [hrest] at hlst
            simp at hlst
            refine ⟨d, ?_, ?_⟩
            · rw [← hlst, hparse]
            · exact (ih (some d)).1 hrest
          | cons y t =>
            rw [hrest] at hlst
            rw [List.getLast?_cons_cons] at hlst
            have hallrest : ∀ l ∈ (rest.map trimChars).filter (fun l => !l.isEmpty),
                (parseDateChars l).isSome := by
              intro l hl
              exact hall l (List.mem_cons_of_mem _ hl)
            exact (ih (some d)).2.1 hallrest lst (by rw [hrest]; exact hlst)
        · intro hex
          rcases hex with ⟨l, hl, hlnone⟩
          rcases List.mem_cons.mp hl with hl | hl
          · rw [hl] at hlnone
            rw [hparse] at hlnone
            exact absurd hlnone (by simp)
          · exact (ih (some d)).2.2 ⟨l, hl, hlnone⟩

/-- C2 (amended): `read_last_line_as_date` returns the date parsed from
the **last non-blank line** provided every non-blank line parses as a
date; a file containing *any* invalid non-blank line is an error (the
code does not skip invalid lines to find the last valid one), and a file
with no non-blank lines is the "File is empty" error.  `get_recent_date`
additionally errors when the file does not exist. -/
theorem read_last_line_as_date_correct (content : String) :
    (nonBlankTrimmedLines content = [] →
      read_last_line_as_date content = .error "File is empty")
    ∧ ((∀ l ∈ nonBlankTrimmedLines content, (parseDateChars l).isSome) →
        ∀ lst, (nonBlankTrimmedLines content).getLast? = some lst →
        ∃ d, parseDateChars lst = some d ∧ read_last_line_as_date content = .ok d)
    ∧ ((∃ l ∈ nonBlankTrimmedLines content, parseDateChars l = none) →
        (read_last_line_as_date content).isOk = false)
    ∧ (get_recent_date none = .error "Recent dates file does not yet exist")
    ∧ (get_recent_date (some content) = read_last_line_as_date content) := by
  have h := readGo_correct (splitOnChar (Char.ofNat 10) content.data) none
  exact ⟨h.1, h.2.1, h.2.2, rfl, rfl⟩

/-- Witness for `read_last_line_as_date_correct`: a cache file holding
two dates and a trailing blank line yields the second date. -/
theorem read_last_line_as_date_correct_witness :
    ∃ d, parseDateChars ("2024-01-07".data) = some d
      ∧ read_last_line_as_date "2024-01-06\n2024-01-07\n" = .ok d :=
  (read_last_line_as_date_correct "2024-01-06\n2024-01-07\n").2.1
    (by decide) ("2024-01-07".data) (by decide)

/-! ## C4: `DateRange::contains` ignores the year -/

lemma daysInMonthYear0_le_31 (m : Nat) : daysInMonthYear0 m ≤ 31 := by
  unfold daysInMonthYear0
  split <;> omega

lemma daysInMonth_le_31 (y m : Nat) : daysInMonth y m ≤ 31 := by
  unfold daysInMonth
  split
  · split <;> omega
  · exact daysInMonthYear0_le_31 m

/-- C4: `contains` ignores the year component entirely (two dates with
equal month and day are treated identically); the range parsed from
`"03-01..03-15"` contains exactly the valid calendar dates with month 3
and day in [1, 15], whatever the year; and `DateRange::all()`
(Jan 1..Dec 31) contains every valid calendar date.  Membership is
decided by the total lexicographic (month, day) order against the
inclusive endpoints. -/
theorem contains_correct :
    (∀ r : DateRange, ∀ d1 d2 : CalendarDate, d1.month = d2.month → d1.day = d2.day →
        r.contains d1 = r.contains d2)
    ∧ DateRange.from_str "03-01..03-15" = .ok ⟨⟨3, 1⟩, ⟨3, 15⟩⟩
    ∧ (∀ d : CalendarDate, d.valid = true →
        (DateRange.contains ⟨⟨3, 1⟩, ⟨3, 15⟩⟩ d = true
          ↔ d.month = 3 ∧ 1 ≤ d.day ∧ d.day ≤ 15))
    ∧ (∀ d : CalendarDate, d.valid = true → DateRange.all.contains d = true) := by
  refine ⟨?_, rfl, ?_, ?_⟩
  · intro r d1 d2 h1 h2
    simp [DateRange.contains, MonthDay.fromDate, h1, h2]
  · intro d _
    simp only [DateRange.contains, MonthDay.fromDate, MonthDay.le, Bool.and_eq_true,
      Bool.or_eq_true, Bool.and_eq_true, decide_eq_true_eq]
    omega
  · intro d hv
    have h31 : daysInMonth d.year d.month ≤ 31 := daysInMonth_le_31 d.year d.month
    simp only [CalendarDate.valid, Bool.and_eq_true, decide_eq_true_eq] at hv
    simp only [DateRange.all, DateRange.contains, MonthDay.fromDate, MonthDay.first,
      MonthDay.last, MonthDay.le, Bool.and_eq_true, Bool.or_eq_true,
      decide_eq_true_eq]
    omega

/-- Witness for `contains_correct`: March 10 is inside the `03-01..03-15`
range in any year, and `DateRange::all()` contains 1999-03-10. -/
theorem contains_correct_witness :
    DateRange.contains ⟨⟨3, 1⟩, ⟨3, 15⟩⟩ ⟨2024, 3, 10⟩ = true
    ∧ DateRange.all.contains ⟨1999, 3, 10⟩ = true :=
  ⟨(contains_correct.2.2.1 ⟨2024, 3, 10⟩ (by decide)).mpr (by decide),
   contains_correct.2.2.2 ⟨1999, 3, 10⟩ (by decide)⟩

/-! ## C5: `make` preconditions -/

/-- C5: with the icon and watermark collaborator steps succeeding, `make`
fails — leaving the filesystem untouched, before any directory or file is
created — when the source image for the date is missing, when some entry
of the generated directory has a date file parsing to the same date, or
when `skip_post_check` is false and some entry of the posts directory
does; `skip_post_check = true` bypasses only the completed-posts check
(the generated-directory check still fails), and in the success cases
exactly the new post entry is appended under `generated`; entries with a
missing or malformed `date` file are skipped by the scan, never an
error. -/
theorem make_correct (st : MakeState) (d : CalendarDate) (name : String) (skip : Bool)
    (hIcon : st.iconOk = true) (hWm : st.watermarkOk = true) :
    (st.sourceExists = false → make st d name skip = (st, some .notARealComic))
    ∧ (st.sourceExists = true → exists_post_with_date st.generated d = true →
        make st d name skip = (st, some .duplicateGenerated))
    ∧ (st.sourceExists = true → exists_post_with_date st.generated d = false →
        exists_post_with_date st.posts d = true → skip = false →
        make st d name skip = (st, some .duplicateCompleted))
    ∧ (st.sourceExists = true → exists_post_with_date st.generated d = false →
        (skip = true ∨ exists_post_with_date st.posts d = false) →
        (make st d name skip).2 = none
          ∧ (make st d name skip).1.generated
              = st.generated ++ [⟨name, some (formatNaiveDate d)⟩]
          ∧ (make st d name skip).1.posts = st.posts)
    ∧ (∀ (entries : List PostEntry) (e : PostEntry), e.dateFile = none →
        exists_post_with_date (e :: entries) d = exists_post_with_date entries d)
    ∧ (∀ (entries : List PostEntry) (e : PostEntry) (content : String),
        e.dateFile = some content → parseDateChars (trimChars content.data) = none →
        exists_post_with_date (e :: entries) d = exists_post_with_date entries d) := by
  refine ⟨?_, ?_, ?_, ?_, ?_, ?_⟩
  · intro hs
    simp [make, hIcon, hWm, hs]
  · intro hs hg
    simp [make, hIcon, hWm, hs, hg]
  · intro hs hg hp hskip
    simp [make, hIcon, hWm, hs, hg, hp, hskip]
  · intro hs hg hor
    rcases hor with hskip | hp
    · simp [make, hIcon, hWm, hs, hg, hskip]
    · simp [make, hIcon, hWm, hs, hg, hp]
  · intro entries e he
    simp [exists_post_with_date, List.any_cons, he]
  · intro entries e content he hparse
    simp [exists_post_with_date, List.any_cons, he, hparse]

/-- Witness for `make_correct`: with no source image `make` fails and
mutates nothing; with a source image and empty directories it succeeds
and appends exactly the new entry. -/
theorem make_correct_witness :
    make ⟨false, [], [], true, true⟩ ⟨2024, 1, 7⟩ "ABCD:2024-01-07" false
      = (⟨false, [], [], true, true⟩, some .notARealComic)
    ∧ (make ⟨true, [], [], true, true⟩ ⟨2024, 1, 7⟩ "ABCD:2024-01-07" false).2 = none :=
  ⟨(make_correct ⟨false, [], [], true, true⟩ ⟨2024, 1, 7⟩ "ABCD:2024-01-07" false
      rfl rfl).1 rfl,
   ((make_correct ⟨true, [], [], true, true⟩ ⟨2024, 1, 7⟩ "ABCD:2024-01-07" false
      rfl rfl).2.2.2.1 rfl rfl (Or.inr rfl)).1⟩

/-! ## C8: random directory entry selection -/

/-- C8: `get_random_directory_entry` returns `none` exactly when no entry
satisfies the predicate (K = 0), and otherwise — whatever in-bounds index
the generator produces over the filtered set's length — returns an entry
of the listing that satisfies the predicate. -/
theorem get_random_directory_entry_correct (dir : String) (names : List String)
    (p : String → Bool) (rng : (n : Nat) → 0 < n → Fin n) :
    (get_random_directory_entry dir names p rng = none
      ↔ names.countP (fun n => p (pathJoin dir n)) = 0)
    ∧ (∀ x, get_random_directory_entry dir names p rng = some x →
        p (pathJoin dir x) = true ∧ x ∈ names) := by
  have hperm : List.Perm (sortEntries (names.filter (fun n => p (pathJoin dir n))))
      (names.filter (fun n => p (pathJoin dir n))) :=
    List.perm_insertionSort _ _
  have hlen : (sortEntries (names.filter (fun n => p (pathJoin dir n)))).length
      = names.countP (fun n => p (pathJoin dir n)) := by
    rw [hperm.length_eq, ← List.countP_eq_length_filter]
  constructor
  · rw [get_random_directory_entry]
    split
    · simp only [true_iff]
      omega
    · simp only [reduceCtorEq, false_iff]
      omega
  · intro x
    rw [get_random_directory_entry]
    split
    · intro h
      exact absurd h (by simp)
    · intro h
      have hx : x ∈ sortEntries (names.filter (fun n => p (pathJoin dir n))) := by
        rw [Option.some_inj] at h
        rw [← h]
        exact List.get_mem _ _ _
      have hx2 : x ∈ names.filter (fun n => p (pathJoin dir n)) := hperm.mem_iff.mp hx
      have := List.mem_filter.mp hx2
      exact ⟨this.2, this.1⟩

/-- An all-true predicate, used by the selection witness. -/
def p0 : String → Bool := fun _ => true

/-- Witness for `get_random_directory_entry_correct`: over `["b", "a"]`
with an all-true predicate and a generator picking index 0, the result is
an entry of the listing satisfying the predicate. -/
theorem get_random_directory_entry_correct_witness :
    p0 (pathJoin "source" "a") = true ∧ "a" ∈ ["b", "a"] :=
  (get_random_directory_entry_correct "source" ["b", "a"] p0
    (fun n h => ⟨0, h⟩)).2 "a" (by decide)

/-! ## C3: ordered-predicate directory search -/

/-- Reduction of `find_child` on a pure predicate: it is `find?` over the sorted listing. -/
lemma find_child_pure (dir : String) (names : List String) (p : String → Bool) :
    find_child dir names (fun s => .ok (p s))
      = .ok ((sortEntries names).find? (fun n => p (pathJoin dir n))) := by
  rw [find_child]
  generalize sortEntries names = l
  induction l with
  | nil => rfl
  | cons a t ih =>
    rw [find_child.go]
    cases hpa : p (pathJoin dir a) with
    | true =>
      rw [List.find?_cons_of_pos _ (by simp [hpa])]
    | false =>
      rw [List.find?_cons_of_neg _ (by simp [hpa])]
      simpa using ih

lemma charListLe_refl (l : List Char) : charListLe l l = true := by
  induction l with
  | nil => rfl
  | cons a t ih => simp [charListLe, ih]

lemma charListLe_total (l1 l2 : List Char) :
    charListLe l1 l2 = true ∨ charListLe l2 l1 = true := by
  induction l1 generalizing l2 with
  | nil => exact Or.inl rfl
  | cons a as ih =>
    cases l2 with
    | nil => exact Or.inr rfl
    | cons b bs =>
      rcases Nat.lt_trichotomy a.toNat b.toNat with h | h | h
      · exact Or.inl (by simp [charListLe, h])
      · have hab : ¬a.toNat < b.toNat := by omega
        have hba : ¬b.toNat < a.toNat := by omega
        rcases ih bs with hc | hc
        · exact Or.inl (by simp [charListLe, hab, hba, hc])
        · exact Or.inr (by simp [charListLe, hab, hba, hc])
      · exact Or.inr (by simp [charListLe, h])

lemma charListLe_trans (l1 l2 l3 : List Char) (h12 : charListLe l1 l2 = true)
    (h23 : charListLe l2 l3 = true) : charListLe l1 l3 = true := by
  induction l1 generalizing l2 l3 with
  | nil => rfl
  | cons a as ih =>
    cases l2 with
    | nil => simp [charListLe] at h12
    | cons b bs =>
      cases l3 with
      | nil => simp [charListLe] at h23
      | cons c cs =>
        rw [charListLe] at h12 h23 ⊢
        by_cases hab : a.toNat < b.toNat
        · by_cases hbc : b.toNat < c.toNat
          · rw [if_pos (by omega)]
          · by_cases hcb : c.toNat < b.toNat
            · rw [if_neg hbc, if_pos hcb] at h23
              exact absurd h23 (by simp)
            · rw [if_pos (by omega)]
        · by_cases hba : b.toNat < a.toNat
          · rw [if_neg hab, if_pos hba] at h12
            exact absurd h12 (by simp)
          · rw [if_neg hab, if_neg hba] at h12
            by_cases hbc : b.toNat < c.toNat
            · rw [if_pos (by omega)]
            · by_cases hcb : c.toNat < b.toNat
              · rw [if_neg hbc, if_pos hcb] at h23
                exact absurd h23 (by simp)
              · rw [if_neg hbc, if_neg hcb] at h23
                rw [if_neg (by omega), if_neg (by omega)]
                exact ih bs cs h12 h23

instance : IsTotal String (fun a b => nameLe a b = true) :=
  ⟨fun a b => charListLe_total a.data b.data⟩

instance : IsTrans String (fun a b => nameLe a b = true) :=
  ⟨fun a b c => charListLe_trans a.data b.data c.data⟩

instance : IsRefl String (fun a b => nameLe a b = true) :=
  ⟨fun a => charListLe_refl a.data⟩

lemma find?_min_of_sorted (l : List String)
    (hs : List.Sorted (fun a b => nameLe a b = true) l)
    (p : String → Bool) (x : String) (hf : l.find? p = some x) :
    ∀ y ∈ l, p y = true → nameLe x y = true := by
  induction l with
  | nil => simp at hf
  | cons a t ih =>
    rcases List.sorted_cons.mp hs with ⟨ha, ht⟩
    intro y hy hpy
    by_cases hpa : p a = true
    · rw [List.find?_cons_of_pos _ hpa, Option.some_inj] at hf
      rcases List.mem_cons.mp hy with rfl | hy
      · exact hf ▸ charListLe_refl y.data
      · exact hf ▸ ha y hy
    · rw [List.find?_cons_of_neg _ hpa] at hf
      rcases List.mem_cons.mp hy with rfl | hy
      · rw [hpy] at hpa
        exact absurd rfl hpa
      · exact ih ht hf y hy hpy

lemma find_child_pure_spec (dir : String) (names : List String) (p : String → Bool) :
    ((∃ n ∈ names, p (pathJoin dir n) = true) →
      ∃ x, find_child dir names (fun s => .ok (p s)) = .ok (some x)
        ∧ x ∈ names ∧ p (pathJoin dir x) = true
        ∧ ∀ y ∈ names, p (pathJoin dir y) = true → nameLe x y = true)
    ∧ ((∀ n ∈ names, p (pathJoin dir n) = false) →
      find_child dir names (fun s => .ok (p s)) = .ok none) := by
  have hperm : List.Perm (sortEntries names) names := List.perm_insertionSort _ _
  have hsorted : List.Sorted (fun a b => nameLe a b = true) (sortEntries names) :=
    List.sorted_insertionSort _ _
  constructor
  · rintro ⟨n, hn, hpn⟩
    rw [find_child_pure]
    cases hfind : (sortEntries names).find? (fun m => p (pathJoin dir m)) with
    | none =>
      rw [List.find?_eq_none] at hfind
      exact absurd hpn (by simpa using hfind n (hperm.mem_iff.mpr hn))
    | some x =>
      refine ⟨x, rfl, hperm.mem_iff.mp (List.mem_of_find?_eq_some hfind), ?_, ?_⟩
      · simpa using List.find?_some hfind
      · intro y hy hpy
        exact find?_min_of_sorted _ hsorted _ x hfind y (hperm.mem_iff.mpr hy) hpy
  · intro hall
    rw [find_child_pure]
    have : (sortEntries names).find? (fun m => p (pathJoin dir m)) = none := by
      rw [List.find?_eq_none]
      intro y hy
      simpa using hall y (hperm.mem_iff.mp hy)
    rw [this]

/-- C3: `find_post` over the ordered pure predicates [P1, P2] gives P1 an
entire scan before ever considering P2: whenever any entry satisfies P1
the result is the alphabetically-least such entry — even if an entry
satisfying P2 sorts earlier — P2 decides only when no entry satisfies P1,
and the result is `none` when neither predicate matches any entry. -/
theorem find_post_ordered (dir : String) (names : List String) (p1 p2 : String → Bool) :
    ((∃ n ∈ names, p1 (pathJoin dir n) = true) →
      ∃ x, find_post dir names [fun s => .ok (p1 s), fun s => .ok (p2 s)] = .ok (some x)
        ∧ x ∈ names ∧ p1 (pathJoin dir x) = true
        ∧ ∀ y ∈ names, p1 (pathJoin dir y) = true → nameLe x y = true)
    ∧ ((∀ n ∈ names, p1 (pathJoin dir n) = false) →
      (∃ n ∈ names, p2 (pathJoin dir n) = true) →
      ∃ x, find_post dir names [fun s => .ok (p1 s), fun s => .ok (p2 s)] = .ok (some x)
        ∧ x ∈ names ∧ p2 (pathJoin dir x) = true
        ∧ ∀ y ∈ names, p2 (pathJoin dir y) = true → nameLe x y = true)
    ∧ ((∀ n ∈ names, p1 (pathJoin dir n) = false) →
      (∀ n ∈ names, p2 (pathJoin dir n) = false) →
      find_post dir names [fun s => .ok (p1 s), fun s => .ok (p2 s)] = .ok none) := by
  refine ⟨?_, ?_, ?_⟩
  · intro hex
    rcases (find_child_pure_spec dir names p1).1 hex with ⟨x, hfc, hmem, hpx, hmin⟩
    refine ⟨x, ?_, hmem, hpx, hmin⟩
    rw [find_post, hfc]
  · intro hall hex
    have h1 : find_child dir names (fun s => .ok (p1 s)) = .ok none :=
      (find_child_pure_spec dir names p1).2 hall
    rcases (find_child_pure_spec dir names p2).1 hex with ⟨x, hfc, hmem, hpx, hmin⟩
    refine ⟨x, ?_, hmem, hpx, hmin⟩
    rw [find_post, h1, find_post, hfc]
  · intro hall1 hall2
    have h1 : find_child dir names (fun s => .ok (p1 s)) = .ok none :=
      (find_child_pure_spec dir names p1).2 hall1
    have h2 : find_child dir names (fun s => .ok (p2 s)) = .ok none :=
      (find_child_pure_spec dir names p2).2 hall2
    rw [find_post, h1, find_post, h2, find_post]

/-- A predicate selecting entries `a` and `c`, for the search witness. -/
def q1 : String → Bool := fun s => s = "posts/a" || s = "posts/c"

/-- A predicate selecting entry `b`, for the search witness. -/
def q2 : String → Bool := fun s => s = "posts/b"

/-- Witness for `find_post_ordered`: among `["b", "a", "c"]`, with P1
matching `a` and `c` and P2 matching `b` (which sorts between them), the
result is `a` — the alphabetically-first P1 match. -/
theorem find_post_ordered_witness :
    ∃ x, find_post "posts" ["b", "a", "c"]
        [fun s => .ok (q1 s), fun s => .ok (q2 s)] = .ok (some x)
      ∧ x ∈ ["b", "a", "c"] ∧ q1 (pathJoin "posts" x) = true
      ∧ ∀ y ∈ ["b", "a", "c"], q1 (pathJoin "posts" y) = true → nameLe x y = true :=
  (find_post_ordered "posts" ["b", "a", "c"] q1 q2).1 ⟨"a", by decide, by decide⟩

/-! ## C10: `generate_name` -/

def isUpperLetter (c : Char) : Bool := 'A' ≤ c && c ≤ 'Z'

def isLowerLetter (c : Char) : Bool := 'a' ≤ c && c ≤ 'z'

/-- C10: for every calendar date, the generated post name is exactly four
letters, a colon, and the `%Y-%m-%d` date — with all four letters drawn
from A–Z exactly when the date's weekday is Sunday, and from a–z (hence
not uppercase) otherwise, so the id itself encodes Sundayness. -/
theorem generate_name_correct (rng : Nat → Char → Char → Char) (d : CalendarDate)
    (hr : ∀ i lo hi, lo ≤ hi → lo ≤ rng i lo hi ∧ rng i lo hi ≤ hi) :
    ∃ c0 c1 c2 c3,
      generate_name rng d = String.mk (c0 :: c1 :: c2 :: c3 :: ':' :: (formatNaiveDate d).data)
      ∧ ((isUpperLetter c0 && isUpperLetter c1 && isUpperLetter c2 && isUpperLetter c3)
          = d.isSunday)
      ∧ ((isLowerLetter c0 && isLowerLetter c1 && isLowerLetter c2 && isLowerLetter c3)
          = !d.isSunday) := by
  cases hsun : d.isSunday with
  | true =>
    refine ⟨rng 0 'A' 'Z', rng 1 'A' 'Z', rng 2 'A' 'Z', rng 3 'A' 'Z', ?_, ?_, ?_⟩
    · rw [generate_name, hsun]
      rfl
    · have h0 := hr 0 'A' 'Z' (by decide)
      have h1 := hr 1 'A' 'Z' (by decide)
      have h2 := hr 2 'A' 'Z' (by decide)
      have h3 := hr 3 'A' 'Z' (by decide)
      simp [isUpperLetter, h0.1, h0.2, h1.1, h1.2, h2.1, h2.2, h3.1, h3.2]
    · have h0 := hr 0 'A' 'Z' (by decide)
      have hlt : ¬('a' ≤ rng 0 'A' 'Z') := by
        intro hle
        exact absurd (le_trans hle h0.2) (by decide)
      simp [isLowerLetter, hlt]
  | false =>
    refine ⟨rng 0 'a' 'z', rng 1 'a' 'z', rng 2 'a' 'z', rng 3 'a' 'z', ?_, ?_, ?_⟩
    · rw [generate_name, hsun]
      rfl
    · have h0 := hr 0 'a' 'z' (by decide)
      have hgt : ¬(rng 0 'a' 'z' ≤ 'Z') := by
        intro hle
        exact absurd (le_trans h0.1 hle) (by decide)
      simp [isUpperLetter, hgt]
    · have h0 := hr 0 'a' 'z' (by decide)
      have h1 := hr 1 'a' 'z' (by decide)
      have h2 := hr 2 'a' 'z' (by decide)
      have h3 := hr 3 'a' 'z' (by decide)
      simp [isLowerLetter, h0.1, h0.2, h1.1, h1.2, h2.1, h2.2, h3.1, h3.2]

/-- Witness for `generate_name_correct` at 2024-01-07, a Sunday, with a
generator that always returns the low end of the range. -/
theorem generate_name_correct_witness :
    ∃ c0 c1 c2 c3,
      generate_name (fun _ lo _ => lo) ⟨2024, 1, 7⟩
        = String.mk (c0 :: c1 :: c2 :: c3 :: ':' :: (formatNaiveDate ⟨2024, 1, 7⟩).data)
      ∧ ((isUpperLetter c0 && isUpperLetter c1 && isUpperLetter c2 && isUpperLetter c3)
          = CalendarDate.isSunday ⟨2024, 1, 7⟩)
      ∧ ((isLowerLetter c0 && isLowerLetter c1 && isLowerLetter c2 && isLowerLetter c3)
          = !CalendarDate.isSunday ⟨2024, 1, 7⟩) :=
  generate_name_correct (fun _ lo _ => lo) ⟨2024, 1, 7⟩
    (fun _ lo _ h => ⟨le_refl lo, h⟩)

end Garfutils
